import Mathlib

/-!
Verification development for the SayDone task parser
(`src/utils/taskParser.js` together with the date-editing helpers of
`src/App.jsx`).

The JavaScript source is shallowly embedded:

* `Date` objects are modelled by `Instant`: a count of days since
  1970-01-01 in the proleptic Gregorian calendar, together with the
  milliseconds elapsed within that day.  The parser never inspects
  time zones (a stated non-goal of the system), so a single civil
  timeline suffices.  Civil-date conversions follow the standard
  era-based algorithm; `jsMakeDay` mirrors ECMAScript `MakeDay`
  including its month/day overflow normalisation, and `jsSetDate`
  mirrors `Date.prototype.setDate`.
* Strings are processed over `List Char`.  Every regular expression of
  the source is hand-compiled to an explicit matcher with the same
  semantics (case-insensitive matching, word boundaries, greedy
  quantifiers with the backtracking that is actually reachable, global
  replacement scanning left to right and resuming after each match).
* The ambient effects of the source — `getNow()` reading the wall
  clock inside `extractDate`, and the record id built from
  `Date.now()` and `Math.random()` — are made explicit as an
  `Ambient` input so that the pipeline becomes a total function.
-/

set_option maxHeartbeats 1600000

namespace TaskParser

/-! ## Calendar model -/

/-- A JavaScript `Date` value: days since the epoch 1970-01-01 plus the
milliseconds elapsed within that day. -/
structure Instant where
  day : Int
  ms : Int
deriving DecidableEq, Repr

/-- Civil (year, month 1..12, day-of-month 1..31) from an epoch-day count,
via the standard era-based conversion for the proleptic Gregorian
calendar. -/
def civilFromDays (z : Int) : Int × Int × Int :=
  let z' := z + 719468
  let era := z' / 146097
  let doe := z' - era * 146097
  let yoe := (doe - doe / 1460 + doe / 36524 - doe / 146096) / 365
  let y := yoe + era * 400
  let doy := doe - (365 * yoe + yoe / 4 - yoe / 100)
  let mp := (5 * doy + 2) / 153
  let d := doy - (153 * mp + 2) / 5 + 1
  let m := if mp < 10 then mp + 3 else mp - 9
  (if m ≤ 2 then y + 1 else y, m, d)

/-- Epoch-day count from a civil (year, month 1..12, day-of-month) date. -/
def daysFromCivil (y m d : Int) : Int :=
  let y' := if m ≤ 2 then y - 1 else y
  let era := y' / 400
  let yoe := y' - era * 400
  let mp := if m > 2 then m - 3 else m + 9
  let doy := (153 * mp + 2) / 5 + d - 1
  let doe := yoe * 365 + yoe / 4 - yoe / 100 + doy
  era * 146097 + doe - 719468

/-- Bounds for the year-of-era and day-of-year computed inside
`civilFromDays`.  Stated with explicit defining equations so callers can
feed in named subterms. -/
theorem yoe_doy_bounds (doe yoe doy : Int) (h0 : 0 ≤ doe) (h1 : doe ≤ 146096)
    (hy : yoe = (doe - doe / 1460 + doe / 36524 - doe / 146096) / 365)
    (hd : doy = doe - (365 * yoe + yoe / 4 - yoe / 100)) :
    0 ≤ yoe ∧ yoe ≤ 399 ∧ 0 ≤ doy ∧ doy ≤ 365 := by
  have hyb : 0 ≤ yoe ∧ yoe ≤ 399 := by omega
  have hcon : 365 * yoe ≤ doe - doe / 1460 + doe / 36524 - doe / 146096 ∧
      doe - doe / 1460 + doe / 36524 - doe / 146096 < 365 * (yoe + 1) := by omega
  refine ⟨hyb.1, hyb.2, ?_⟩
  clear hy
  obtain ⟨hy0, hy399⟩ := hyb
  interval_cases yoe <;> omega

/-- The month and day-of-month produced by `civilFromDays` lie in the
calendar ranges. -/
theorem civilFromDays_bounds (z : Int) :
    1 ≤ (civilFromDays z).2.1 ∧ (civilFromDays z).2.1 ≤ 12 ∧
    1 ≤ (civilFromDays z).2.2 ∧ (civilFromDays z).2.2 ≤ 31 := by
  unfold civilFromDays
  dsimp only []
  set doe := z + 719468 - (z + 719468) / 146097 * 146097 with hdoe
  set yoe := (doe - doe / 1460 + doe / 36524 - doe / 146096) / 365 with hyoe
  set doy := doe - (365 * yoe + yoe / 4 - yoe / 100) with hdoy
  have hdoeb : 0 ≤ doe ∧ doe ≤ 146096 := by omega
  have hb := yoe_doy_bounds doe yoe doy hdoeb.1 hdoeb.2 hyoe hdoy
  set mp := (5 * doy + 2) / 153 with hmp
  clear_value doe yoe doy mp
  have hmpb : 0 ≤ mp ∧ mp ≤ 11 := by omega
  obtain ⟨hmp0, hmp11⟩ := hmpb
  clear hyoe hdoe
  interval_cases mp <;> split_ifs <;> omega

/-- `daysFromCivil` inverts `civilFromDays`. -/
theorem daysFromCivil_civilFromDays (z : Int) :
    daysFromCivil (civilFromDays z).1 (civilFromDays z).2.1 (civilFromDays z).2.2 = z := by
  unfold civilFromDays daysFromCivil
  dsimp only []
  set doe := z + 719468 - (z + 719468) / 146097 * 146097 with hdoe
  set yoe := (doe - doe / 1460 + doe / 36524 - doe / 146096) / 365 with hyoe
  set doy := doe - (365 * yoe + yoe / 4 - yoe / 100) with hdoy
  have hdoeb : 0 ≤ doe ∧ doe ≤ 146096 := by omega
  have hb := yoe_doy_bounds doe yoe doy hdoeb.1 hdoeb.2 hyoe hdoy
  set mp := (5 * doy + 2) / 153 with hmp
  clear_value doe yoe doy mp
  have hmpb : 0 ≤ mp ∧ mp ≤ 11 := by omega
  obtain ⟨hmp0, hmp11⟩ := hmpb
  clear hyoe
  have k1 : (yoe + (z + 719468) / 146097 * 400) / 400 = (z + 719468) / 146097 := by omega
  have k2 : (yoe + (z + 719468) / 146097 * 400 + 1 - 1) / 400 = (z + 719468) / 146097 := by
    omega
  have k3 : (yoe + (z + 719468) / 146097 * 400 -
      (yoe + (z + 719468) / 146097 * 400) / 400 * 400) / 4 = yoe / 4 := by omega
  have k4 : (yoe + (z + 719468) / 146097 * 400 -
      (yoe + (z + 719468) / 146097 * 400) / 400 * 400) / 100 = yoe / 100 := by omega
  have k5 : (yoe + (z + 719468) / 146097 * 400 + 1 - 1 -
      (yoe + (z + 719468) / 146097 * 400 + 1 - 1) / 400 * 400) / 4 = yoe / 4 := by omega
  have k6 : (yoe + (z + 719468) / 146097 * 400 + 1 - 1 -
      (yoe + (z + 719468) / 146097 * 400 + 1 - 1) / 400 * 400) / 100 = yoe / 100 := by omega
  interval_cases mp <;> split_ifs <;> omega

/-- ECMAScript `MakeDay(y, m, d)`: `m` is a 0-based month index and both
`m` and `d` may lie outside their calendar ranges; overflow is carried
into the year and the day count. -/
def jsMakeDay (y m d : Int) : Int :=
  daysFromCivil (y + m / 12) (m % 12 + 1) 1 + (d - 1)

/-- `new Date(y, m, d)` — local midnight of the (possibly overflowing)
civil date. -/
def jsMakeDate (y m d : Int) : Instant :=
  ⟨jsMakeDay y m d, 0⟩

/-- `Date.prototype.getFullYear`. -/
def getFullYear (t : Instant) : Int :=
  (civilFromDays t.day).1

/-- `Date.prototype.getDate` (day of month, 1..31). -/
def getDate (t : Instant) : Int :=
  (civilFromDays t.day).2.2

/-- `Date.prototype.getDay` (0 = Sunday .. 6 = Saturday); 1970-01-01 was
a Thursday. -/
def getDay (t : Instant) : Int :=
  (t.day + 4) % 7

/-- `Date.prototype.setDate n`: replace the day-of-month by `n`,
normalising overflow, keeping the time of day. -/
def jsSetDate (t : Instant) (n : Int) : Instant :=
  ⟨jsMakeDay (civilFromDays t.day).1 ((civilFromDays t.day).2.1 - 1) n, t.ms⟩

/-- Shift an instant by a whole number of days. -/
def addDays (t : Instant) (k : Int) : Instant :=
  ⟨t.day + k, t.ms⟩

/-- JavaScript `<` on `Date` values (timestamp comparison). -/
def instLtB (a b : Instant) : Bool :=
  a.day < b.day || (a.day == b.day && a.ms < b.ms)

/-- `daysFromCivil` is linear in the day argument. -/
theorem daysFromCivil_day (y m d : Int) :
    daysFromCivil y m d = daysFromCivil y m 1 + (d - 1) := by
  unfold daysFromCivil
  split_ifs <;> ring

/-- The idiom `date.setDate(date.getDate() + k)` of the source advances
the date by exactly `k` days. -/
theorem jsSetDate_getDate_add (t : Instant) (k : Int) :
    jsSetDate t (getDate t + k) = addDays t k := by
  unfold jsSetDate getDate addDays jsMakeDay
  have hb := civilFromDays_bounds t.day
  have hrt := daysFromCivil_civilFromDays t.day
  have hlin := daysFromCivil_day (civilFromDays t.day).1 (civilFromDays t.day).2.1
    (civilFromDays t.day).2.2
  have h12 : ((civilFromDays t.day).2.1 - 1) / 12 = 0 := by omega
  have h12b : ((civilFromDays t.day).2.1 - 1) % 12 = (civilFromDays t.day).2.1 - 1 := by
    omega
  rw [h12, h12b]
  have hm : (civilFromDays t.day).2.1 - 1 + 1 = (civilFromDays t.day).2.1 := by ring
  rw [hm]
  simp only [Instant.mk.injEq, add_zero]
  constructor
  · omega
  · trivial

/-! ## Characters and strings

The parser works on JavaScript strings; every input of interest is
ASCII, so characters are compared by ASCII code and `toLowerCase` /
`toUpperCase` act on the ASCII letters. -/

/-- The apostrophe character (several source keywords contain one). -/
def apos : Char := Char.ofNat 39

/-- Tab, line feed and carriage return. -/
def tabChar : Char := Char.ofNat 9

def nlChar : Char := Char.ofNat 10

def crChar : Char := Char.ofNat 13

/-- Regex word character `[A-Za-z0-9_]`. -/
def isWordChar (c : Char) : Bool :=
  (('a') ≤ c && c ≤ ('z')) || (('A') ≤ c && c ≤ ('Z')) ||
    (('0') ≤ c && c ≤ ('9')) || c = ('_')

/-- Regex whitespace (the classes reachable from the parser's inputs). -/
def isSpaceChar (c : Char) : Bool :=
  c = (' ') || c = tabChar || c = nlChar || c = crChar

def isDigitChar (c : Char) : Bool :=
  ('0') ≤ c && c ≤ ('9')

/-- Regex `[a-z]` under the `i` flag. -/
def isAlphaChar (c : Char) : Bool :=
  (('a') ≤ c && c ≤ ('z')) || (('A') ≤ c && c ≤ ('Z'))

/-- ASCII `toLowerCase` on one character. -/
def lcChar (c : Char) : Char :=
  if ('A') ≤ c && c ≤ ('Z') then Char.ofNat (c.toNat + 32) else c

/-- ASCII `toUpperCase` on one character. -/
def ucChar (c : Char) : Char :=
  if ('a') ≤ c && c ≤ ('z') then Char.ofNat (c.toNat - 32) else c

/-- `String.prototype.toLowerCase`. -/
def lcL (s : List Char) : List Char :=
  s.map lcChar

/-- Case-insensitive prefix match of a (lower-case) pattern. -/
def matchCI : List Char → List Char → Bool
  | [], _ => true
  | _ :: _, [] => false
  | p :: ps, c :: cs => (lcChar c = lcChar p) && matchCI ps cs

/-- Regex `\b` between a previous character (`none` at the string edge)
and the rest of the string: the two sides disagree on word-hood. -/
def bdryAt : Option Char → List Char → Bool
  | none, [] => false
  | none, c :: _ => isWordChar c
  | some p, [] => isWordChar p
  | some p, c :: _ => isWordChar p ≠ isWordChar c

/-- `String.prototype.trim`. -/
def trimL (s : List Char) : List Char :=
  ((s.dropWhile (fun c => isSpaceChar c)).reverse.dropWhile (fun c => isSpaceChar c)).reverse

/-- One pass of `replace(/\s+/g, ' ')`: the flag records whether the
previous character belonged to a whitespace run already emitted as one
space. -/
def collapseAux : Bool → List Char → List Char
  | _, [] => []
  | inRun, c :: rest =>
    if isSpaceChar c then
      if inRun then collapseAux true rest else (' ') :: collapseAux true rest
    else c :: collapseAux false rest

/-- `replace(/\s+/g, ' ')`: collapse every whitespace run to one space. -/
def collapseWsL (s : List Char) : List Char :=
  collapseAux false s

/-- The source idiom `.replace(/\s+/g, ' ').trim()`. -/
def normSpaceL (s : List Char) : List Char :=
  trimL (collapseWsL s)

/-! ### A pattern language for the source's regexes

Each regex of `taskParser.js` is an alternation of simple sequences
made of case-insensitive literals, `\s+`, an optional single character
and single-character repetition.  Alternatives carry their own leading
and trailing `\b` requirement.  Greedy matching without backtracking is
exact for these patterns because every `\s+`/repetition is followed by
a literal that cannot start with the repeated class. -/

inductive Pat where
  | lit : List Char → Pat
  | sp1 : Pat
  | optChar : Char → Pat
deriving Repr

/-- Match a sequence of pattern atoms at the head of `s`, returning the
number of characters consumed. -/
def matchPats : List Pat → List Char → Option Nat
  | [], _ => some 0
  | Pat.lit l :: ps, s =>
    if matchCI l s then (matchPats ps (s.drop l.length)).map (· + l.length) else none
  | Pat.sp1 :: ps, s =>
    let r := (s.takeWhile (fun c => isSpaceChar c)).length
    if r = 0 then none else (matchPats ps (s.drop r)).map (· + r)
  | Pat.optChar c :: ps, s =>
    match s with
    | [] => matchPats ps []
    | d :: rest =>
      if lcChar d = lcChar c then (matchPats ps rest).map (· + 1) else matchPats ps (d :: rest)

/-- One alternative: leading-`\b` flag, atom sequence, trailing-`\b`
flag. -/
def tryAlt (bb : Bool) (ps : List Pat) (ba : Bool) (prev : Option Char) (s : List Char) :
    Option Nat :=
  if bb && !(bdryAt prev s) then none
  else
    match matchPats ps s with
    | none => none
    | some n =>
      if ba then
        if bdryAt (s.take n).getLast? (s.drop n) then some n else none
      else some n

/-- An alternation tried in order at one position. -/
def mAlts (alts : List (Bool × List Pat × Bool)) (prev : Option Char) (s : List Char) :
    Option Nat :=
  alts.findSome? (fun a => tryAlt a.1 a.2.1 a.2.2 prev s)

/-- `\bw\b` for a literal keyword (the keyword may contain spaces or an
apostrophe; both its first and last characters are word characters in
every source table). -/
def wordPat (w : String) : Bool × List Pat × Bool :=
  (true, [Pat.lit w.data], true)

/-- A matcher reports how many characters a match starting here consumes. -/
abbrev Matcher := Option Char → List Char → Option Nat

/-- `regex.test`: does a match start at some position? -/
def scanTest (m : Matcher) : Option Char → List Char → Bool
  | _, [] => false
  | prev, c :: rest => (m prev (c :: rest)).isSome || scanTest m (some c) rest

/-- `string.match(regex)` (no `g` flag): data of the leftmost match. -/
def scanFirst {α : Type} (m : Option Char → List Char → Option α) :
    Option Char → List Char → Option α
  | _, [] => none
  | prev, c :: rest =>
    match m prev (c :: rest) with
    | some a => some a
    | none => scanFirst m (some c) rest

/-- Fuelled worker for global replacement: every step consumes at least
one character of `s`, so fuel `s.length` is always enough; structural
recursion on the fuel keeps the definition kernel-computable. -/
def scanRepF (m : Matcher) (repl : List Char) : Nat → Option Char → List Char → List Char
  | 0, _, s => s
  | _ + 1, _, [] => []
  | fuel + 1, prev, c :: rest =>
    match m prev (c :: rest) with
    | some n =>
      if 0 < n then
        repl ++ scanRepF m repl fuel
          (some (((c :: rest).take n).getLastD c)) ((c :: rest).drop n)
      else c :: scanRepF m repl fuel (some c) rest
    | none => c :: scanRepF m repl fuel (some c) rest

/-- `string.replace(regex, repl)` with the `g` flag: scan left to right,
replace every match, resume after the matched span (boundaries keep
referring to the original characters). -/
def scanRep (m : Matcher) (repl : List Char) (prev : Option Char) (s : List Char) :
    List Char :=
  scanRepF m repl s.length prev s

/-- `\bkw\b` with flags `gi`: test form. -/
def wordTest (kw : String) (s : List Char) : Bool :=
  scanTest (mAlts [wordPat kw]) none s

/-- `\bkw\b` with flags `gi`: global replacement. -/
def replaceWord (kw : String) (repl : List Char) (s : List Char) : List Char :=
  scanRep (mAlts [wordPat kw]) repl none s

/-! ## The source's keyword tables (verbatim, duplicates included) -/

/-- The HIGH-tier keyword written `before it's` in the source. -/
def beforeIts : String :=
  ("before it") ++ String.mk [apos] ++ ("s")

/-- The filler phrase written `there's a need to` in the source. -/
def theresANeedTo : String :=
  ("there") ++ String.mk [apos] ++ ("s a need to")

def URGENT_KEYWORDS : List String :=
  ["urgent", "asap", "immediately", "critical", "high priority", "must do", "critical issue"]

def HIGH_KEYWORDS : List String :=
  ["important", "tonight", "today", "urgent", beforeIts, "overdue", "deadline",
    "by end of day", "eod"]

def LOW_KEYWORDS : List String :=
  ["whenever", "low priority", "maybe", "sometime", "eventually"]

def WORK_KEYWORDS : List String :=
  ["email", "meeting", "call", "presentation", "boss", "client", "code",
    "budget", "slide", "project", "deadline", "report", "office", "business",
    "interview", "hire", "deploy", "patch", "bug", "production", "expense", "agenda",
    "slides", "client meeting", "work", "conference", "presentation"]

def HOME_KEYWORDS : List String :=
  ["mom", "dad", "mother", "father", "gym", "groceries", "kids", "dinner", "party",
    "doctor", "family", "wife", "husband", "son", "daughter", "parent", "brother",
    "sister", "laundry", "clean", "cook", "bank", "bill", "medicine", "workout",
    "trip", "vacation", "home", "house", "driving license", "credit card",
    "blood pressure", "appointment", "mom", "airport", "cab", "electricity",
    "workspace", "resume"]

def WORD_EXPANSIONS : List (String × String) :=
  [("mom", "mother"), ("dad", "father"), ("tmw", "tomorrow")]

def FILLER_PHRASES : List String :=
  ["there is a need to", theresANeedTo, "there is need to", "i need to", "i have to",
    "i want to", "i should", "we need to", "we have to", "we should", "please",
    "remind me to", "can you", "could you"]

/-- English short month names, as produced by
`toLocaleString('default', { month: 'short' })` in an English locale and
listed verbatim in `App.jsx`. -/
def MONTH_NAMES : List String :=
  ["Jan", "Feb", "Mar", "Apr", "May", "Jun", "Jul", "Aug", "Sep", "Oct", "Nov", "Dec"]

/-! ## Pipeline stage 1: normalisation (`normalize`) -/

/-- `normalize`: trim, expand shorthands, delete filler phrases, collapse
whitespace — each substitution a global word-bounded case-insensitive
replacement, in the source's order. -/
def normalize (text : String) : String :=
  let t0 := trimL text.data
  let t1 := WORD_EXPANSIONS.foldl (fun acc p => replaceWord p.1 p.2.data acc) t0
  let t2 := FILLER_PHRASES.foldl (fun acc p => replaceWord p [] acc) t1
  String.mk (normSpaceL t2)

/-! ## Pipeline stage 2: segmentation (`segment`) -/

/-- `/\s+w\s+/gi` — a delimiter word surrounded by whitespace. -/
def spacedWordM (w : String) : Matcher :=
  mAlts [(false, [Pat.sp1, Pat.lit w.data, Pat.sp1], false)]

/-- `/\.\s+/g`. -/
def dotSpaceM : Matcher :=
  mAlts [(false, [Pat.lit [('.')], Pat.sp1], false)]

/-- `/,\s+/g`. -/
def commaSpaceM : Matcher :=
  mAlts [(false, [Pat.lit [(',')], Pat.sp1], false)]

/-- `/\n+/g`: a run of newline characters. -/
def newlinesM : Matcher := fun _ s =>
  let r := (s.takeWhile (fun c => c = nlChar)).length
  if r = 0 then none else some r

/-- Split on the internal separator bar, as `String.prototype.split`. -/
def splitBar : List Char → List (List Char)
  | [] => [[]]
  | c :: rest =>
    if c = ('|') then [] :: splitBar rest
    else
      match splitBar rest with
      | [] => [[c]]
      | g :: gs => (c :: g) :: gs

/-- `segment`: replace each delimiter by a bar, split, trim, and keep
pieces longer than two characters. -/
def segment (text : String) : List String :=
  let bar := [('|')]
  let s1 := scanRep (spacedWordM ("and")) bar none text.data
  let s2 := scanRep dotSpaceM bar none s1
  let s3 := scanRep commaSpaceM bar none s2
  let s4 := scanRep (spacedWordM ("also")) bar none s3
  let s5 := scanRep (spacedWordM ("then")) bar none s4
  let s6 := scanRep newlinesM bar none s5
  (((splitBar s6).map (fun l => trimL l)).filter (fun l => l.length > 2)).map String.mk

/-! ## Pipeline stage 3a: priority extraction (`extractPriority`) -/

/-- One tier of the source's keyword loop: test each keyword against the
lower-cased clause in order; on the first hit replace all of its
occurrences in the (original-case) clause and stop. -/
def stripTier (kws : List String) (lowerText cleaned : List Char) : Option (List Char) :=
  match kws with
  | [] => none
  | k :: rest =>
    if wordTest k lowerText then some (replaceWord k [] cleaned)
    else stripTier rest lowerText cleaned

/-- `extractPriority`: URGENT tier, then HIGH, then LOW; default
Medium; the cleaned clause is whitespace-collapsed and trimmed. -/
def extractPriority (text : String) : String × String :=
  let lowerText := lcL text.data
  match stripTier URGENT_KEYWORDS lowerText text.data with
  | some c => (("High"), String.mk (normSpaceL c))
  | none =>
    match stripTier HIGH_KEYWORDS lowerText text.data with
    | some c => (("High"), String.mk (normSpaceL c))
    | none =>
      match stripTier LOW_KEYWORDS lowerText text.data with
      | some c => (("Low"), String.mk (normSpaceL c))
      | none => (("Medium"), String.mk (normSpaceL text.data))

/-! ## Pipeline stage 3c: date extraction (`extractDate`) -/

/-- Numeric value of a digit string (`parseInt` on the captured `\d+`). -/
def digitsToNat (ds : List Char) : Nat :=
  ds.foldl (fun n c => n * 10 + (c.toNat - 48)) 0

/-- `\b` immediately after a word character: the rest must be empty or
start with a non-word character. -/
def bdryAfterWordChar (s : List Char) : Bool :=
  match s.head? with
  | none => true
  | some c => !(isWordChar c)

/-- Rule 2 of `extractDate`: `/in next (\d+) days?/i` (no word
boundaries in the source pattern).  Returns (match length, captured day
count). -/
def inNextAt (s : List Char) : Option (Nat × Nat) :=
  if matchCI ("in next ").data s then
    let rest := s.drop 8
    let ds := rest.takeWhile isDigitChar
    if ds.length = 0 then none
    else
      let rest2 := rest.drop ds.length
      if matchCI (" day").data rest2 then
        let hasS := matchCI ("s").data (rest2.drop 4)
        some (8 + ds.length + 4 + (if hasS then 1 else 0), digitsToNat ds)
      else none
  else none

def inNextM : Matcher := fun _ s => (inNextAt s).map (fun r => r.1)

def inNextCapM (_ : Option Char) (s : List Char) : Option Nat :=
  (inNextAt s).map (fun r => r.2)

/-- Rule 1: `/\beod\b/i`. -/
def eodM : Matcher := mAlts [wordPat ("eod")]

/-- Rule 3: `/\b(this\s+)?(weekend)\b/i`. -/
def weekendM : Matcher :=
  mAlts [(true, [Pat.lit ("this").data, Pat.sp1, Pat.lit ("weekend").data], true),
    wordPat ("weekend")]

/-- Rule 4: `/\b(this\s+)?month|sometime\s+this\s+month\b/i` — the
alternation splits exactly there: the left alternative carries the
leading boundary and no trailing one, the right alternative the
reverse. -/
def monthM : Matcher :=
  mAlts [(true, [Pat.lit ("this").data, Pat.sp1, Pat.lit ("month").data], false),
    (true, [Pat.lit ("month").data], false),
    (false, [Pat.lit ("sometime").data, Pat.sp1, Pat.lit ("this").data, Pat.sp1,
      Pat.lit ("month").data], true)]

/-- Rule 5: `/\b(next\s+week)\b/i`. -/
def nextWeekM : Matcher :=
  mAlts [(true, [Pat.lit ("next").data, Pat.sp1, Pat.lit ("week").data], true)]

/-- Rule 6: `/\b(summer\s+)?(holiday|vacation|travel)\b/i`. -/
def holidayM : Matcher :=
  mAlts [(true, [Pat.lit ("summer").data, Pat.sp1, Pat.lit ("holiday").data], true),
    (true, [Pat.lit ("summer").data, Pat.sp1, Pat.lit ("vacation").data], true),
    (true, [Pat.lit ("summer").data, Pat.sp1, Pat.lit ("travel").data], true),
    wordPat ("holiday"), wordPat ("vacation"), wordPat ("travel")]

/-- Rule 7: `/\b(today|tonight)\b/i`. -/
def todayTonightM : Matcher :=
  mAlts [wordPat ("today"), wordPat ("tonight")]

/-- Rule 7: `/\b(tomorrow)\b/i`. -/
def tomorrowM : Matcher :=
  mAlts [wordPat ("tomorrow")]

/-- The weekday alternation in the order of the source regex. -/
def DAY_ALTS : List String :=
  ["monday", "tuesday", "wednesday", "thursday", "friday", "saturday", "sunday"]

/-- The `days` array used with `indexOf` to number weekdays. -/
def DAYS : List String :=
  ["sunday", "monday", "tuesday", "wednesday", "thursday", "friday", "saturday"]

/-- `Array.prototype.indexOf`. -/
def jsIndexOf (l : List String) (x : String) : Int :=
  let i := l.indexOf x
  if i < l.length then (i : Int) else -1

/-- After the optional `(on|next|by)` prefix: `\s*` then the weekday
alternation then `\b`.  Returns (total length, day name). -/
def weekdayTail (plen : Nat) (after : List Char) : Option (Nat × String) :=
  let r := (after.takeWhile isSpaceChar).length
  let rest2 := after.drop r
  DAY_ALTS.findSome? (fun d =>
    if matchCI d.data rest2 && bdryAfterWordChar (rest2.drop d.data.length) then
      some (plen + r + d.data.length, d)
    else none)

/-- Rule 8: `/\b(on|next|by)?\s*(monday|…|sunday)\b/i` at one position:
the optional prefix is tried greedily (present first, alternatives in
order), and a prefix that matches textually but is not followed by a
weekday falls back to the later alternatives and then to the empty
prefix. -/
def weekdayAt (prev : Option Char) (s : List Char) : Option (Nat × String) :=
  if bdryAt prev s then
    match ([("on"), ("next"), ("by")] : List String).findSome? (fun p =>
      if matchCI p.data s then weekdayTail p.data.length (s.drop p.data.length)
      else none) with
    | some r => some r
    | none => weekdayTail 0 s
  else none

def weekdayM : Matcher := fun p s => (weekdayAt p s).map (fun r => r.1)

def weekdayCapM (p : Option Char) (s : List Char) : Option String :=
  (weekdayAt p s).map (fun r => r.2)

/-- The ordinal-suffix alternation `(st|nd|rd|th)?`. -/
def ORD_ALTS : List String := ["st", "nd", "rd", "th"]

/-- The month alternation `(jan|feb|…|dec)`, which is also the `months`
array the source indexes into, in identical order. -/
def MONTH_ALTS : List String :=
  ["jan", "feb", "mar", "apr", "may", "jun", "jul", "aug", "sep", "oct", "nov", "dec"]

/-- Day-then-month rule, tail after the day digits and optional ordinal:
`\s+(jan|…)[a-z]*` and, in the `test` variant only, a trailing `\b`.
Returns (total length, month index).  The characters matched by
`[a-z]*` end in a letter, so the trailing `\b` holds exactly when the
remainder does not start with a word character. -/
def dmTail (endB : Bool) (base : Nat) (rest : List Char) : Option (Nat × Nat) :=
  let r := (rest.takeWhile isSpaceChar).length
  if r = 0 then none
  else
    let rest2 := rest.drop r
    MONTH_ALTS.enum.findSome? (fun p =>
      if matchCI p.2.data rest2 then
        let after3 := rest2.drop p.2.data.length
        let letters := (after3.takeWhile isAlphaChar).length
        let rest3 := after3.drop letters
        let total := base + r + p.2.data.length + letters
        if endB then (if bdryAfterWordChar rest3 then some (total, p.1) else none)
        else some (total, p.1)
      else none)

/-- Day digits followed by the optional ordinal.  If an ordinal is
present but the sequel fails, the empty-ordinal alternative cannot
succeed either (`\s+` cannot match the ordinal's letter), so committing
to a present ordinal is faithful to the regex backtracking. -/
def dmOrd (endB : Bool) (base day : Nat) (rest : List Char) : Option (Nat × Nat × Nat) :=
  let ordLen :=
    match ORD_ALTS.findSome? (fun o => if matchCI o.data rest then some o.data.length
      else none) with
    | some l => l
    | none => 0
  (dmTail endB (base + ordLen) (rest.drop ordLen)).map (fun p => (p.1, day, p.2))

/-- Rule 9 (day month): `\b(\d{1,2})(st|nd|rd|th)?\s+(jan|…)[a-z]*`,
with a trailing `\b` in the `test` variant only (the `match` and
`replace` regexes of the source omit it).  `\d{1,2}` is greedy and
backtracks from two digits to one when the continuation fails. -/
def dmAt (endB : Bool) (prev : Option Char) (s : List Char) : Option (Nat × Nat × Nat) :=
  if bdryAt prev s then
    let try2 :=
      match s with
      | a :: b :: rest =>
        if isDigitChar a && isDigitChar b then dmOrd endB 2 (digitsToNat [a, b]) rest
        else none
      | _ => none
    match try2 with
    | some r => some r
    | none =>
      match s with
      | a :: rest => if isDigitChar a then dmOrd endB 1 (digitsToNat [a]) rest else none
      | [] => none
  else none

def dmTestM : Matcher := fun p s => (dmAt true p s).map (fun r => r.1)

def dmReplM : Matcher := fun p s => (dmAt false p s).map (fun r => r.1)

def dmCapM (p : Option Char) (s : List Char) : Option (Nat × Nat) :=
  (dmAt false p s).map (fun r => (r.2.1, r.2.2))

/-- Month-then-day continuation after the whitespace: `(\d{1,2})` greedy
with backtracking, `(st|nd|rd|th)?`, trailing `\b` (present in all three
regex variants of this rule).  Returns (length from `base`, day). -/
def mdOrd (base day : Nat) (rest : List Char) : Option (Nat × Nat) :=
  let ordLen :=
    match ORD_ALTS.findSome? (fun o => if matchCI o.data rest then some o.data.length
      else none) with
    | some l => l
    | none => 0
  if bdryAfterWordChar (rest.drop ordLen) then some (base + ordLen, day) else none

def mdDigits (base : Nat) (rest3 : List Char) : Option (Nat × Nat) :=
  let two :=
    match rest3 with
    | a :: b :: rest4 =>
      if isDigitChar a && isDigitChar b then mdOrd (base + 2) (digitsToNat [a, b]) rest4
      else none
    | _ => none
  match two with
  | some r => some r
  | none =>
    match rest3 with
    | a :: rest4 => if isDigitChar a then mdOrd (base + 1) (digitsToNat [a]) rest4 else none
    | [] => none

/-- Rule 10 (month day): `\b(jan|…)[a-z]*\s+(\d{1,2})(st|nd|rd|th)?\b`. -/
def mdAt (prev : Option Char) (s : List Char) : Option (Nat × Nat × Nat) :=
  if bdryAt prev s then
    MONTH_ALTS.enum.findSome? (fun p =>
      if matchCI p.2.data s then
        let after3 := s.drop p.2.data.length
        let letters := (after3.takeWhile isAlphaChar).length
        let rest2 := after3.drop letters
        let r := (rest2.takeWhile isSpaceChar).length
        if r = 0 then none
        else
          (mdDigits (p.2.data.length + letters + r) (rest2.drop r)).map
            (fun q => (q.1, q.2, p.1))
      else none)
  else none

def mdM : Matcher := fun p s => (mdAt p s).map (fun r => r.1)

def mdCapM (p : Option Char) (s : List Char) : Option (Nat × Nat) :=
  (mdAt p s).map (fun r => (r.2.1, r.2.2))

/-- `extractDate`: the ordered, first-match-wins rule chain of the
source, each branch producing the resolved date (if any) and the clause
with the matched spans removed; the cleaned text is whitespace-collapsed
and trimmed at the end.  `now` stands for the `getNow()` wall-clock read
inside the source function.  The source's local `hasUrgentTiming` is
computed but never used, so it is omitted here. -/
def extractDate (text : String) (now : Instant) : Option Instant × String :=
  let lowerText := lcL text.data
  let step : Option Instant × List Char :=
    if scanTest eodM none lowerText then
      (some now, scanRep eodM [] none text.data)
    else if scanTest inNextM none lowerText then
      match scanFirst inNextCapM none lowerText with
      | some days =>
        (some (jsSetDate now (getDate now + (days : Int))), scanRep inNextM [] none text.data)
      | none => (none, text.data)
    else if scanTest weekendM none lowerText then
      let currentDay := getDay now
      let d0 : Int := 6 - currentDay
      let d1 := if currentDay = 0 ∨ currentDay = 6 then 2 else d0
      let d2 := if d1 ≤ 0 then d1 + 7 else d1
      (some (jsSetDate now (getDate now + d2)), scanRep weekendM [] none text.data)
    else if scanTest monthM none lowerText then
      let d1 := jsSetDate now 15
      let d2 := if instLtB d1 now then jsSetDate d1 (min 28 (getDate now + 5)) else d1
      (some d2, scanRep monthM [] none text.data)
    else if scanTest nextWeekM none lowerText then
      (some (jsSetDate now (getDate now + 7)), scanRep nextWeekM [] none text.data)
    else if scanTest holidayM none lowerText then
      (none, scanRep holidayM [] none text.data)
    else if scanTest todayTonightM none lowerText then
      (some now, scanRep todayTonightM [] none text.data)
    else if scanTest tomorrowM none lowerText then
      (some (jsSetDate now (getDate now + 1)), scanRep tomorrowM [] none text.data)
    else if scanTest weekdayM none lowerText then
      match scanFirst weekdayCapM none lowerText with
      | some dayName =>
        let targetDay := jsIndexOf DAYS dayName
        let currentDay := getDay now
        let d0 := targetDay - currentDay
        let d1 := if d0 ≤ 0 then d0 + 7 else d0
        (some (jsSetDate now (getDate now + d1)), scanRep weekdayM [] none text.data)
      | none => (none, text.data)
    else if scanTest dmTestM none lowerText then
      match scanFirst dmCapM none lowerText with
      | some dm =>
        let year := getFullYear now
        let c := jsMakeDate year (dm.2 : Int) (dm.1 : Int)
        let c2 := if instLtB c now then jsMakeDate (year + 1) (dm.2 : Int) (dm.1 : Int) else c
        (some c2, scanRep dmReplM [] none text.data)
      | none => (none, scanRep dmReplM [] none text.data)
    else if scanTest mdM none lowerText then
      match scanFirst mdCapM none lowerText with
      | some dm =>
        let year := getFullYear now
        let c := jsMakeDate year (dm.2 : Int) (dm.1 : Int)
        let c2 := if instLtB c now then jsMakeDate (year + 1) (dm.2 : Int) (dm.1 : Int) else c
        (some c2, scanRep mdM [] none text.data)
      | none => (none, scanRep mdM [] none text.data)
    else (none, text.data)
  (step.1, String.mk (normSpaceL step.2))

/-! ## Pipeline stage 3b: category classification (`extractCategory`) -/

/-- The source's `forEach` scoring loop: one point per keyword list
entry whose word-bounded case-insensitive test hits the clause. -/
def countHits (kws : List String) (lowerText : List Char) : Nat :=
  kws.foldl (fun n k => if wordTest k lowerText then n + 1 else n) 0

/-- `extractCategory`: Work exactly when the work score is positive and
beats the home score; never strips text. -/
def extractCategory (text : String) : String × String :=
  let lowerText := lcL text.data
  let workScore := countHits WORK_KEYWORDS lowerText
  let homeScore := countHits HOME_KEYWORDS lowerText
  (if workScore > 0 ∧ workScore > homeScore then ("Work") else ("Home"), text)

/-! ## Pipeline stage 4: final cleaning (`finalClean`) -/

/-- The stop-word alternation
`/\b(by|on|at|in|for|the|a|an|to|of|and|or)\b/gi`. -/
def stopM : Matcher :=
  mAlts ([("by"), ("on"), ("at"), ("in"), ("for"), ("the"), ("a"), ("an"), ("to"),
    ("of"), ("and"), ("or")].map wordPat)

/-- The time-word alternation
`/\b(morning|afternoon|evening|night|today|tonight|tomorrow|this|next|this\s+week|next\s+week|weekend)\b/gi`
(the two-word alternatives are kept even though the one-word prefixes
shadow them). -/
def timeM : Matcher :=
  mAlts [wordPat ("morning"), wordPat ("afternoon"), wordPat ("evening"),
    wordPat ("night"), wordPat ("today"), wordPat ("tonight"), wordPat ("tomorrow"),
    wordPat ("this"), wordPat ("next"),
    (true, [Pat.lit ("this").data, Pat.sp1, Pat.lit ("week").data], true),
    (true, [Pat.lit ("next").data, Pat.sp1, Pat.lit ("week").data], true),
    wordPat ("weekend")]

/-- The duration alternation `/\b(before\s+it'?s|sometime|eventually)\b/gi`. -/
def durM : Matcher :=
  mAlts [(true, [Pat.lit ("before").data, Pat.sp1, Pat.lit ("it").data,
      Pat.optChar apos, Pat.lit ("s").data], true),
    wordPat ("sometime"), wordPat ("eventually")]

/-- The punctuation class `[,.\-:;]` trimmed from both ends. -/
def isPunctChar (c : Char) : Bool :=
  c = (',') || c = ('.') || c = ('-') || c = (':') || c = (';')

/-- `finalClean`: strip stop words, time words and duration phrases,
collapse whitespace, trim boundary punctuation, capitalise. -/
def finalClean (text : String) : String :=
  let c1 := scanRep stopM [] none text.data
  let c2 := scanRep timeM [] none c1
  let c3 := scanRep durM [] none c2
  let c4 := normSpaceL c3
  let c5 := trimL (((c4.dropWhile isPunctChar).reverse.dropWhile isPunctChar).reverse)
  match c5 with
  | [] => String.mk []
  | c :: rest => String.mk (ucChar c :: rest)

/-! ## Record assembly (`formatDate`, `processSegment`, `parseTasks`) -/

/-- Fuelled digit renderer (one fuel unit per decimal digit). -/
def natToCharsF : Nat → Nat → List Char
  | 0, _ => []
  | fuel + 1, n =>
    if n < 10 then [Char.ofNat (48 + n)]
    else natToCharsF fuel (n / 10) ++ [Char.ofNat (48 + n % 10)]

/-- Decimal digits of a natural number (`String(n)` for `n ≥ 0`). -/
def natToChars (n : Nat) : List Char :=
  natToCharsF (n + 1) n

/-- `String(n).padStart(2, '0')` for the day-of-month values the parser
produces. -/
def pad2 (n : Int) : List Char :=
  let m := n.toNat
  if m < 10 then ('0') :: natToChars m else natToChars m

/-- `formatDate`: render an instant as `DD-MMM` with the English short
month name (`toLocaleString('default', { month: 'short' })` in the
app's English locale). -/
def formatDate (t : Instant) : String :=
  String.mk (pad2 ((civilFromDays t.day).2.2)) ++ ("-") ++
    MONTH_NAMES.getD ((civilFromDays t.day).2.1 - 1).toNat ("")

/-- The urgency-boost alternation of `processSegment`:
`/\b(tonight|end of day|eod|today|urgent|asap)\b/i`. -/
def boostM : Matcher :=
  mAlts [wordPat ("tonight"), wordPat ("end of day"), wordPat ("eod"),
    wordPat ("today"), wordPat ("urgent"), wordPat ("asap")]

/-- The TaskRecord produced for one clause. -/
structure Task where
  description : String
  dueDate : String
  category : String
  urgency : String
  completed : Bool
  id : String
deriving DecidableEq, Repr

/-- The clause residue a segment has after priority, category and date
extraction — the local `afterDate` of `processSegment`, the pre-cleaning
text the Final Cleaner receives. -/
def afterDateText (seg : String) (now : Instant) : String :=
  (extractDate (extractCategory (extractPriority seg).2).2 now).2

/-- The local `finalDescription` of `processSegment`: the cleaned
clause, or the original segment when cleaning left fewer than 3
characters. -/
def psDescription (seg : String) (now : Instant) : String :=
  if (finalClean (afterDateText seg now)).length < 3 then seg
  else finalClean (afterDateText seg now)

/-- The `dueDate` field of the record: the resolved date rendered by
`formatDate`, or the sentinel. -/
def psDueDate (seg : String) (now : Instant) : String :=
  match (extractDate (extractCategory (extractPriority seg).2).2 now).1 with
  | some d => formatDate d
  | none => ("Not specified")

/-- The local `priority` of `processSegment` after the urgency boost:
a Medium priority is raised to High when the *original* segment
contains a timing keyword. -/
def psUrgency (seg : String) : String :=
  if (extractPriority seg).1 = ("Medium") then
    (if scanTest boostM none (lcL seg.data) then ("High") else (extractPriority seg).1)
  else (extractPriority seg).1

/-- `processSegment`: priority → category → date extraction on the
stripped residue, final cleaning with fallback to the original segment,
urgency boost from the original segment, record assembly.  `idStr`
stands for the ambient `Date.now() + Math.random().toString(36).substr(2, 9)`. -/
def processSegment (seg : String) (now : Instant) (idStr : String) : Task :=
  { description := psDescription seg now,
    dueDate := psDueDate seg now,
    category := (extractCategory (extractPriority seg).2).1,
    urgency := psUrgency seg,
    completed := false,
    id := idStr }

/-- The ambient inputs of one `parseTasks` run: the wall-clock instant
read by `getNow()` and, for each clause index, the id string produced
from `Date.now()` and `Math.random()`. -/
structure Ambient where
  now : Instant
  idGen : Nat → String

/-- `segments.map(processSegment)` with the per-call ambient id reads
made explicit. -/
def runSegments (now : Instant) (idGen : Nat → String) : Nat → List String → List Task
  | _, [] => []
  | k, s :: rest => processSegment s now (idGen k) :: runSegments now idGen (k + 1) rest

/-- `parseTasks`: normalise, segment, process each clause in order. -/
def parseTasks (input : String) (amb : Ambient) : List Task :=
  runSegments amb.now amb.idGen 0 (segment (normalize input))

/-! ## Derived notions used to state the properties under scrutiny -/

/-- A task record with its ambient-entropy-derived id blanked out. -/
def eraseId (t : Task) : Task :=
  { t with id := ("") }

/-- The first priority keyword the tier loops accept: URGENT tier
first, then HIGH, then LOW, each scanned in list order. -/
def firstPriorityHit (lowerText : List Char) : Option (String × String) :=
  match URGENT_KEYWORDS.find? (fun k => wordTest k lowerText) with
  | some k => some (("High"), k)
  | none =>
    match HIGH_KEYWORDS.find? (fun k => wordTest k lowerText) with
    | some k => some (("High"), k)
    | none =>
      match LOW_KEYWORDS.find? (fun k => wordTest k lowerText) with
      | some k => some (("Low"), k)
      | none => none

/-- Number of *distinct* keywords of a vocabulary matching a clause
(each keyword counted once even when the source list repeats it). -/
def distinctHits (kws : List String) (lowerText : List Char) : Nat :=
  kws.dedup.countP (fun k => wordTest k lowerText)

/-- The weekday-offset computation claimed for the weekday rule:
`targetDay - currentDay`, plus 7 whenever that offset is ≤ 0. -/
def rollForwardWeek (target current : Int) : Int :=
  if target - current ≤ 0 then target - current + 7 else target - current

/-- The explicit-date dispatch of `extractDate`: the day-month rule is
consulted first (its `test` regex carries a trailing `\b` the `match`
regex lacks), then the month-day rule.  Returns the captured
(day, month index). -/
def explicitDateCap (lowerText : List Char) : Option (Nat × Nat) :=
  if scanTest dmTestM none lowerText then scanFirst dmCapM none lowerText
  else if scanTest mdM none lowerText then scanFirst mdCapM none lowerText
  else none

/-- `String.prototype.split('-')`. -/
def splitDash : List Char → List (List Char)
  | [] => [[]]
  | c :: rest =>
    if c = ('-') then [] :: splitDash rest
    else
      match splitDash rest with
      | [] => [[c]]
      | g :: gs => (c :: g) :: gs

/-- `parseInt` on the strings reachable here: skip leading whitespace,
read a decimal digit prefix, `none` for JavaScript's `NaN`. -/
def parseIntJS (s : List Char) : Option Int :=
  let t := s.dropWhile isSpaceChar
  let ds := t.takeWhile isDigitChar
  if ds.length = 0 then none else some ((digitsToNat ds : Nat) : Int)

/-- The parsing core of `formatDateForInput` in `App.jsx`: split a
`DD-MMM` string on the dash, read the day with `parseInt` and the
0-based month with `indexOf` into the month-name array, succeeding only
when the split yields two parts and the month is recognised. -/
def parseDDMMM (s : String) : Option (Int × Int) :=
  match splitDash s.data with
  | [p0, p1] =>
    match parseIntJS p0 with
    | some d =>
      let mi := jsIndexOf MONTH_NAMES (String.mk p1)
      if mi ≠ -1 then some (d, mi) else none
    | none => none
  | _ => none

/-! ## Projection lemmas for `processSegment` -/

theorem processSegment_description (seg : String) (now : Instant) (idStr : String) :
    (processSegment seg now idStr).description = psDescription seg now := by
  simp only [processSegment]

theorem processSegment_urgency (seg : String) (now : Instant) (idStr : String) :
    (processSegment seg now idStr).urgency = psUrgency seg := by
  simp only [processSegment]

theorem processSegment_category (seg : String) (now : Instant) (idStr : String) :
    (processSegment seg now idStr).category = (extractCategory (extractPriority seg).2).1 := by
  simp only [processSegment]

theorem processSegment_dueDate (seg : String) (now : Instant) (idStr : String) :
    (processSegment seg now idStr).dueDate = psDueDate seg now := by
  simp only [processSegment]

theorem processSegment_completed (seg : String) (now : Instant) (idStr : String) :
    (processSegment seg now idStr).completed = false := by
  simp only [processSegment]

theorem eraseId_processSegment (s : String) (now : Instant) (i j : String) :
    eraseId (processSegment s now i) = eraseId (processSegment s now j) := by
  simp only [processSegment, eraseId]

/-! ## Claim C2 -/

theorem runSegments_eraseId (now : Instant) (g1 g2 : Nat → String) :
    ∀ (L : List String) (k1 k2 : Nat),
      (runSegments now g1 k1 L).map eraseId = (runSegments now g2 k2 L).map eraseId := by
  intro L
  induction L with
  | nil => intro k1 k2; rfl
  | cons s rest ih =>
    intro k1 k2
    simp only [runSegments, List.map]
    rw [eraseId_processSegment s now (g1 k1) (g2 k2), ih (k1 + 1) (k2 + 1)]

/-- C2 (counterexample): two runs on the same utterance with the same
ambient instant but different `Math.random`/`Date.now` draws return
different TaskRecord lists (the id fields differ), so the entry point
is not deterministic including the id field. -/
theorem C2_counterexample :
    parseTasks ("call mother") { now := ⟨20096, 0⟩, idGen := fun _ => ("a") } ≠
      parseTasks ("call mother") { now := ⟨20096, 0⟩, idGen := fun _ => ("b") } := by
  decide

/-- C2 (amended): `parseTasks` reads the wall clock via `getNow()`
inside `extractDate` and builds each id from `Date.now()` and
`Math.random()`; modelling those ambient reads as explicit inputs, two
invocations on the same utterance whose ambient instants agree return
identical lists up to the id field — every field other than `id` is a
deterministic function of the utterance and the instant. -/
theorem C2_amended (input : String) (a1 a2 : Ambient) (h : a1.now = a2.now) :
    (parseTasks input a1).map eraseId = (parseTasks input a2).map eraseId := by
  unfold parseTasks
  rw [h]
  exact runSegments_eraseId a2.now a1.idGen a2.idGen (segment (normalize input)) 0 0

/-- C2 witness: the amended statement at a concrete utterance and two
ambients that share the instant but differ in the id source. -/
theorem C2_witness :
    ({ now := ⟨20096, 0⟩, idGen := fun _ => ("a") } : Ambient).now =
      ({ now := ⟨20096, 0⟩, idGen := fun _ => ("b") } : Ambient).now ∧
    (parseTasks ("call mother") { now := ⟨20096, 0⟩, idGen := fun _ => ("a") }).map eraseId =
      (parseTasks ("call mother") { now := ⟨20096, 0⟩, idGen := fun _ => ("b") }).map eraseId :=
  ⟨rfl, C2_amended ("call mother") _ _ rfl⟩

/-! ## Claim C3 -/

theorem stripTier_eq (kws : List String) (lt cl : List Char) :
    stripTier kws lt cl =
      (kws.find? (fun k => wordTest k lt)).map (fun k => replaceWord k [] cl) := by
  induction kws with
  | nil => rfl
  | cons k rest ih =>
    unfold stripTier
    by_cases h : wordTest k lt
    · simp [List.find?, h]
    · simp [List.find?, h, ih]

/-- C3 (counterexample): on the clause "urgent task urgent" the
matched keyword "urgent" is stripped at *both* of its occurrences (the
keyword regexes carry the `g` flag), leaving "task"; the later
occurrence of the very same matched keyword does not remain, so the
claim as stated is false. -/
theorem C3_counterexample :
    extractPriority ("urgent task urgent") = (("High"), ("task")) ∧
    wordTest ("urgent") (lcL ("task").data) = false := by
  decide

/-- C3 (amended): whenever some priority keyword matches (URGENT tier
first, then HIGH, then LOW, first match in list order), extractPriority
returns that tier's priority and the clause with *every* whole-word
occurrence of that single matched keyword deleted (then whitespace
collapsed); no other keyword's deletion is applied. -/
theorem C3_amended (text : String) (p k : String)
    (h : firstPriorityHit (lcL text.data) = some (p, k)) :
    extractPriority text = (p, String.mk (normSpaceL (replaceWord k [] text.data))) := by
  unfold extractPriority
  unfold firstPriorityHit at h
  dsimp only []
  rw [stripTier_eq, stripTier_eq, stripTier_eq]
  cases hU : URGENT_KEYWORDS.find? (fun k => wordTest k (lcL text.data)) with
  | some u =>
    rw [hU] at h
    simp only [Option.some.injEq, Prod.mk.injEq] at h
    obtain ⟨hp, hk⟩ := h
    subst hp hk
    simp
  | none =>
    rw [hU] at h
    cases hH : HIGH_KEYWORDS.find? (fun k => wordTest k (lcL text.data)) with
    | some u =>
      rw [hH] at h
      simp only [Option.some.injEq, Prod.mk.injEq] at h
      obtain ⟨hp, hk⟩ := h
      subst hp hk
      simp
    | none =>
      rw [hH] at h
      cases hL : LOW_KEYWORDS.find? (fun k => wordTest k (lcL text.data)) with
      | some u =>
        rw [hL] at h
        simp only [Option.some.injEq, Prod.mk.injEq] at h
        obtain ⟨hp, hk⟩ := h
        subst hp hk
        simp
      | none =>
        rw [hL] at h
        exact absurd h (by simp)

/-- C3 witness: the amended statement at "urgent task urgent", whose
first hit is the URGENT keyword "urgent". -/
theorem C3_witness :
    firstPriorityHit (lcL ("urgent task urgent").data) = some (("High"), ("urgent")) ∧
    extractPriority ("urgent task urgent") =
      (("High"), String.mk (normSpaceL (replaceWord ("urgent") [] ("urgent task urgent").data))) :=
  ⟨by decide, C3_amended ("urgent task urgent") ("High") ("urgent") (by decide)⟩

/-! ## Claim C4 -/

/-- C4 (counterexample): for the clause "tonight the on" the cleaner
output is shorter than 3 characters and the produced description is the
*original un-stripped segment* "tonight the on", not the post-stripping
residue "the on" the claim requires. -/
theorem C4_counterexample :
    (processSegment ("tonight the on") ⟨20096, 0⟩ ("ID")).description = ("tonight the on") ∧
    afterDateText ("tonight the on") ⟨20096, 0⟩ = ("the on") ∧
    (finalClean (("the on"))).length < 3 ∧
    ("tonight the on") ≠ ("the on") := by
  decide

/-- C4 (amended): when the Final Cleaner's output is shorter than 3
characters the description falls back to the original un-stripped
segment; since the segmenter only emits clauses longer than 2
characters, every produced description has length at least 3 and is in
particular never empty. -/
theorem C4_amended (seg : String) (now : Instant) (idStr : String) (h : 3 ≤ seg.length) :
    (processSegment seg now idStr).description =
      (if (finalClean (afterDateText seg now)).length < 3 then seg
        else finalClean (afterDateText seg now)) ∧
    3 ≤ (processSegment seg now idStr).description.length := by
  rw [processSegment_description]
  unfold psDescription
  refine ⟨rfl, ?_⟩
  split_ifs with hx
  · exact h
  · omega

/-- C4 witness: the amended statement at the clause "tonight the on",
where the fallback branch is taken. -/
theorem C4_witness :
    3 ≤ ("tonight the on" : String).length ∧
    ((processSegment ("tonight the on") ⟨20096, 0⟩ ("ID")).description =
      (if (finalClean (afterDateText ("tonight the on") ⟨20096, 0⟩)).length < 3
        then ("tonight the on")
        else finalClean (afterDateText ("tonight the on") ⟨20096, 0⟩)) ∧
    3 ≤ (processSegment ("tonight the on") ⟨20096, 0⟩ ("ID")).description.length) :=
  ⟨by decide, C4_amended ("tonight the on") ⟨20096, 0⟩ ("ID") (by decide)⟩

/-! ## Claim C5 -/

theorem countHits_eq (kws : List String) (lt : List Char) :
    countHits kws lt = kws.countP (fun k => wordTest k lt) := by
  unfold countHits
  suffices h : ∀ n, kws.foldl (fun n k => if wordTest k lt then n + 1 else n) n =
      n + kws.countP (fun k => wordTest k lt) by
    have := h 0
    omega
  induction kws with
  | nil => intro n; simp
  | cons k rest ih =>
    intro n
    by_cases hk : wordTest k lt <;> simp [List.countP_cons, hk, ih] <;> omega

/-- C5 (counterexample): the clause "presentation gym" matches exactly
one distinct WORK keyword and one distinct HOME keyword, yet is
classified Work — the WORK list contains the entry "presentation"
twice, so the source's scores count list entries, not distinct
keywords, and the claim's distinct-count rule fails. -/
theorem C5_counterexample :
    (extractCategory ("presentation gym")).1 = ("Work") ∧
    distinctHits WORK_KEYWORDS (lcL ("presentation gym").data) = 1 ∧
    distinctHits HOME_KEYWORDS (lcL ("presentation gym").data) = 1 := by
  decide

/-- C5 (amended): the category is Work exactly when the number of
*list entries* of the WORK vocabulary matching the clause (duplicated
entries counted each time) is positive and strictly greater than the
matching HOME entry count; in every other case, including equal
positive counts, the category is Home, and no third value occurs. -/
theorem C5_amended (text : String) :
    ((extractCategory text).1 = ("Work") ↔
      (WORK_KEYWORDS.countP (fun k => wordTest k (lcL text.data)) > 0 ∧
        WORK_KEYWORDS.countP (fun k => wordTest k (lcL text.data)) >
          HOME_KEYWORDS.countP (fun k => wordTest k (lcL text.data)))) ∧
    ((extractCategory text).1 = ("Work") ∨ (extractCategory text).1 = ("Home")) := by
  unfold extractCategory
  dsimp only []
  rw [countHits_eq, countHits_eq]
  constructor
  · split_ifs with hcond
    · simpa using hcond
    · simpa using hcond
  · split_ifs <;> simp

/-! ## Claim C10 -/

/-- C10: for every segment on which extractPriority returns the
default Medium, if the original pre-stripping segment contains one of
the whole words or phrases "tonight", "end of day", "eod", "today",
"urgent", "asap" (case-insensitively), the emitted record's urgency is
raised to High. -/
theorem C10_urgency_boost (seg : String) (now : Instant) (idStr : String)
    (h1 : (extractPriority seg).1 = ("Medium"))
    (h2 : scanTest boostM none (lcL seg.data) = true) :
    (processSegment seg now idStr).urgency = ("High") := by
  rw [processSegment_urgency]
  unfold psUrgency
  rw [h1, h2]
  simp

/-- C10 witness: the clause "finish report end of day" — no priority
tier keyword matches ("by end of day" needs the "by"), yet the boost
raises the urgency to High. -/
theorem C10_witness :
    (extractPriority ("finish report end of day")).1 = ("Medium") ∧
    scanTest boostM none (lcL ("finish report end of day").data) = true ∧
    (processSegment ("finish report end of day") ⟨20096, 0⟩ ("ID")).urgency = ("High") :=
  ⟨by decide, by decide,
    C10_urgency_boost ("finish report end of day") ⟨20096, 0⟩ ("ID") (by decide) (by decide)⟩

/-! ## Claim C6 -/

theorem weekOffsetFacts (t : Int) (now : Instant) (h0 : 0 ≤ t) (h6 : t ≤ 6) :
    1 ≤ rollForwardWeek t (getDay now) ∧ rollForwardWeek t (getDay now) ≤ 7 ∧
    getDay (addDays now (rollForwardWeek t (getDay now))) = t ∧
    (getDay now = t → rollForwardWeek t (getDay now) = 7) := by
  unfold rollForwardWeek getDay addDays
  dsimp only []
  split_ifs <;> omega

/-- Auxiliary: a successful `findSome?` came from some list element. -/
theorem findSome_mem {α β : Type} (f : α → Option β) :
    ∀ (l : List α) (b : β), l.findSome? f = some b → ∃ a, a ∈ l ∧ f a = some b := by
  intro l
  induction l with
  | nil =>
    intro b h
    simp [List.findSome?_nil] at h
  | cons x rest ih =>
    intro b h
    rw [List.findSome?_cons] at h
    cases hx : f x with
    | some v =>
      rw [hx] at h
      exact ⟨x, List.mem_cons_self x rest, hx.trans h⟩
    | none =>
      rw [hx] at h
      obtain ⟨a, ha, hfa⟩ := ih b h
      exact ⟨a, List.mem_cons_of_mem x ha, hfa⟩

/-- The day name produced by the weekday-rule tail is one of the seven
alternation entries. -/
theorem weekdayTail_mem (plen : Nat) (after : List Char) (n : Nat) (d : String)
    (h : weekdayTail plen after = some (n, d)) : d ∈ DAY_ALTS := by
  simp only [weekdayTail] at h
  obtain ⟨a, ha, hfa⟩ := findSome_mem _ _ _ h
  split_ifs at hfa
  simp only [Option.some.injEq, Prod.mk.injEq] at hfa
  rw [← hfa.2]
  exact ha

/-- The day name captured by the weekday-rule matcher at one position is
one of the seven alternation entries. -/
theorem weekdayAt_mem (prev : Option Char) (s : List Char) (n : Nat) (d : String)
    (h : weekdayAt prev s = some (n, d)) : d ∈ DAY_ALTS := by
  unfold weekdayAt at h
  split_ifs at h
  cases hp : (([("on"), ("next"), ("by")] : List String).findSome? (fun p =>
      if matchCI p.data s then weekdayTail p.data.length (s.drop p.data.length)
      else none)) with
  | some r =>
    rw [hp] at h
    simp only [Option.some.injEq] at h
    obtain ⟨a, ha, hfa⟩ := findSome_mem _ _ _ hp
    split_ifs at hfa
    rw [h] at hfa
    exact weekdayTail_mem _ _ _ _ hfa
  | none =>
    rw [hp] at h
    exact weekdayTail_mem _ _ _ _ h

/-- The first weekday capture over a string is one of the seven day
names. -/
theorem scanFirst_weekdayCap_mem (d : String) :
    ∀ (prev : Option Char) (s : List Char),
      scanFirst weekdayCapM prev s = some d → d ∈ DAY_ALTS := by
  intro prev s
  induction s generalizing prev with
  | nil =>
    intro h
    simp [scanFirst] at h
  | cons c rest ih =>
    intro h
    simp only [scanFirst] at h
    cases hm : weekdayCapM prev (c :: rest) with
    | some a =>
      rw [hm] at h
      simp only [Option.some.injEq] at h
      unfold weekdayCapM at hm
      obtain ⟨pr, hpr, hpr2⟩ := Option.map_eq_some'.1 hm
      obtain ⟨n2, d2⟩ := pr
      have hd2 : d2 = d := by
        rw [← h, ← hpr2]
      rw [hd2] at hpr
      exact weekdayAt_mem _ _ _ _ hpr
    | none =>
      rw [hm] at h
      exact ih _ h

/-- A successful weekday capture makes the branch's `test` succeed. -/
theorem scanFirst_weekdayCap_test (d : String) :
    ∀ (prev : Option Char) (s : List Char),
      scanFirst weekdayCapM prev s = some d → scanTest weekdayM prev s = true := by
  intro prev s
  induction s generalizing prev with
  | nil =>
    intro h
    simp [scanFirst] at h
  | cons c rest ih =>
    intro h
    simp only [scanFirst] at h
    simp only [scanTest]
    cases hm : weekdayAt prev (c :: rest) with
    | some pr =>
      have hw : weekdayM prev (c :: rest) = some pr.1 := by
        simp [weekdayM, hm]
      simp [hw]
    | none =>
      have hc : weekdayCapM prev (c :: rest) = none := by
        simp [weekdayCapM, hm]
      rw [hc] at h
      have hw : weekdayM prev (c :: rest) = none := by
        simp [weekdayM, hm]
      simp [hw, ih _ h]

/-- Each of the seven day names is numbered 0..6 by the `days` array. -/
theorem jsIndexOf_DAYS_bounds (d : String) (h : d ∈ DAY_ALTS) :
    0 ≤ jsIndexOf DAYS d ∧ jsIndexOf DAYS d ≤ 6 := by
  fin_cases h <;> exact ⟨by decide, by decide⟩

/-- C6: for every reference instant and every clause whose
first-matching date rule is the named-weekday rule — rules 1–8 fail on
the lower-cased clause and the weekday regex (day name optionally
prefixed by "on"/"next"/"by") captures day name `d` — the resolved date
is `now` plus the offset targetDay − currentDay rolled forward by 7
whenever that offset is ≤ 0; the offset lies in 1..7, lands on the
requested weekday, and equals 7 exactly when the weekday is today — so
"monday" resolved when `now` is itself a Monday yields `now + 7` days,
never `now + 0` days. -/
theorem C6_weekday_rollover (text : String) (now : Instant)
    (h1 : scanTest eodM none (lcL text.data) = false)
    (h2 : scanTest inNextM none (lcL text.data) = false)
    (h3 : scanTest weekendM none (lcL text.data) = false)
    (h4 : scanTest monthM none (lcL text.data) = false)
    (h5 : scanTest nextWeekM none (lcL text.data) = false)
    (h6 : scanTest holidayM none (lcL text.data) = false)
    (h7 : scanTest todayTonightM none (lcL text.data) = false)
    (h8 : scanTest tomorrowM none (lcL text.data) = false)
    (d : String) (hcap : scanFirst weekdayCapM none (lcL text.data) = some d) :
    (extractDate text now).1 =
      some (addDays now (rollForwardWeek (jsIndexOf DAYS d) (getDay now))) ∧
    1 ≤ rollForwardWeek (jsIndexOf DAYS d) (getDay now) ∧
    rollForwardWeek (jsIndexOf DAYS d) (getDay now) ≤ 7 ∧
    getDay (addDays now (rollForwardWeek (jsIndexOf DAYS d) (getDay now))) =
      jsIndexOf DAYS d ∧
    (getDay now = jsIndexOf DAYS d →
      rollForwardWeek (jsIndexOf DAYS d) (getDay now) = 7) := by
  have hmem := scanFirst_weekdayCap_mem d none (lcL text.data) hcap
  have hidx := jsIndexOf_DAYS_bounds d hmem
  refine ⟨?_, weekOffsetFacts (jsIndexOf DAYS d) now hidx.1 hidx.2⟩
  rw [← jsSetDate_getDate_add now (rollForwardWeek (jsIndexOf DAYS d) (getDay now))]
  have htest := scanFirst_weekdayCap_test d none (lcL text.data) hcap
  simp only [extractDate]
  simp only [h1, h2, h3, h4, h5, h6, h7, h8, Bool.false_eq_true, if_false]
  simp only [htest, if_true]
  rw [hcap]
  dsimp only []
  unfold rollForwardWeek
  rfl

/-- C6 witness: the clause "monday" on Monday 2025-01-06 — all earlier
rules fail, the capture yields "monday", and the offset is 7. -/
theorem C6_witness :
    getDay ⟨20094, 0⟩ = jsIndexOf DAYS ("monday") ∧
    ((extractDate ("monday") ⟨20094, 0⟩).1 =
      some (addDays ⟨20094, 0⟩
        (rollForwardWeek (jsIndexOf DAYS ("monday")) (getDay ⟨20094, 0⟩))) ∧
    1 ≤ rollForwardWeek (jsIndexOf DAYS ("monday")) (getDay ⟨20094, 0⟩) ∧
    rollForwardWeek (jsIndexOf DAYS ("monday")) (getDay ⟨20094, 0⟩) ≤ 7 ∧
    getDay (addDays ⟨20094, 0⟩
        (rollForwardWeek (jsIndexOf DAYS ("monday")) (getDay ⟨20094, 0⟩))) =
      jsIndexOf DAYS ("monday") ∧
    (getDay ⟨20094, 0⟩ = jsIndexOf DAYS ("monday") →
      rollForwardWeek (jsIndexOf DAYS ("monday")) (getDay ⟨20094, 0⟩) = 7)) :=
  ⟨by decide,
    C6_weekday_rollover ("monday") ⟨20094, 0⟩ (by decide) (by decide) (by decide)
      (by decide) (by decide) (by decide) (by decide) (by decide) ("monday") (by decide)⟩

/-! ## Claim C7 -/

/-- C7: for every clause whose first-matching date rule is the
explicit day+month or month+day rule (all earlier rules fail and the
rule's captures yield day `d` and 0-based month `mi`), the resolver
builds `new Date(getFullYear now, mi, d)` in the current year and rolls
the year forward by one exactly when that date is strictly before
`now`. -/
theorem C7_explicit_date_rollover (text : String) (now : Instant)
    (h1 : scanTest eodM none (lcL text.data) = false)
    (h2 : scanTest inNextM none (lcL text.data) = false)
    (h3 : scanTest weekendM none (lcL text.data) = false)
    (h4 : scanTest monthM none (lcL text.data) = false)
    (h5 : scanTest nextWeekM none (lcL text.data) = false)
    (h6 : scanTest holidayM none (lcL text.data) = false)
    (h7 : scanTest todayTonightM none (lcL text.data) = false)
    (h8 : scanTest tomorrowM none (lcL text.data) = false)
    (h9 : scanTest weekdayM none (lcL text.data) = false)
    (d mi : Nat) (hcap : explicitDateCap (lcL text.data) = some (d, mi)) :
    (extractDate text now).1 =
      some (if instLtB (jsMakeDate (getFullYear now) (mi : Int) (d : Int)) now
        then jsMakeDate (getFullYear now + 1) (mi : Int) (d : Int)
        else jsMakeDate (getFullYear now) (mi : Int) (d : Int)) := by
  unfold explicitDateCap at hcap
  simp only [extractDate]
  simp only [h1, h2, h3, h4, h5, h6, h7, h8, h9, Bool.false_eq_true, if_false]
  by_cases hdm : scanTest dmTestM none (lcL text.data) = true
  · simp only [hdm, if_true] at hcap ⊢
    rw [hcap]
  · have hdm' : scanTest dmTestM none (lcL text.data) = false := by
      revert hdm
      cases scanTest dmTestM none (lcL text.data) <;> simp
    simp only [hdm', Bool.false_eq_true, if_false] at hcap ⊢
    by_cases hmd : scanTest mdM none (lcL text.data) = true
    · simp only [hmd, if_true] at hcap ⊢
      rw [hcap]
    · have hmd' : scanTest mdM none (lcL text.data) = false := by
        revert hmd
        cases scanTest mdM none (lcL text.data) <;> simp
      rw [hmd'] at hcap
      simp at hcap

/-- C7 witness: "3 jan" resolved at 2025-12-20 (epoch day 20442)
yields 2026-01-03 (epoch day 20456) — the year rolls forward. -/
theorem C7_witness :
    daysFromCivil 2025 12 20 = 20442 ∧ daysFromCivil 2026 1 3 = 20456 ∧
    (extractDate ("3 jan") ⟨20442, 0⟩).1 =
      some (if instLtB (jsMakeDate (getFullYear ⟨20442, 0⟩) ((0 : Nat) : Int) ((3 : Nat) : Int))
          ⟨20442, 0⟩
        then jsMakeDate (getFullYear ⟨20442, 0⟩ + 1) ((0 : Nat) : Int) ((3 : Nat) : Int)
        else jsMakeDate (getFullYear ⟨20442, 0⟩) ((0 : Nat) : Int) ((3 : Nat) : Int)) ∧
    (extractDate ("3 jan") ⟨20442, 0⟩).1 = some ⟨20456, 0⟩ :=
  ⟨by decide, by decide,
    C7_explicit_date_rollover ("3 jan") ⟨20442, 0⟩ (by decide) (by decide) (by decide)
      (by decide) (by decide) (by decide) (by decide) (by decide) (by decide) 3 0 (by decide),
    by decide⟩

/-! ## Claim C8 -/

set_option maxHeartbeats 8000000 in
/-- C8: rendering any resolved calendar instant to `DD-MMM` with
`formatDate` and parsing it back with the `formatDateForInput` core of
`App.jsx` (split on the dash, `parseInt` the day, `indexOf` the month
abbreviation) reproduces exactly the day-of-month and the 0-based month
of the original date. -/
theorem C8_roundtrip (t : Instant) :
    parseDDMMM (formatDate t) =
      some ((civilFromDays t.day).2.2, (civilFromDays t.day).2.1 - 1) := by
  have hb := civilFromDays_bounds t.day
  unfold formatDate
  set m := (civilFromDays t.day).2.1 with hm
  set d := (civilFromDays t.day).2.2 with hd
  clear_value m d
  obtain ⟨h1, h2, h3, h4⟩ := hb
  interval_cases m <;> interval_cases d <;> decide

/-! ## Claim C9 -/

theorem mem_runSegments {now : Instant} {g : Nat → String} :
    ∀ {L : List String} {k : Nat} {r : Task},
      r ∈ runSegments now g k L → ∃ s ∈ L, ∃ i, r = processSegment s now i := by
  intro L
  induction L with
  | nil => intro k r hr; cases hr
  | cons s rest ih =>
    intro k r hr
    rcases List.mem_cons.1 hr with h | h
    · exact ⟨s, List.mem_cons_self s rest, g k, h⟩
    · obtain ⟨s2, hs2, i, hi⟩ := ih h
      exact ⟨s2, List.mem_cons_of_mem s hs2, i, hi⟩

theorem mem_segment_len (t s : String) (h : s ∈ segment t) : 3 ≤ s.length := by
  unfold segment at h
  rcases List.mem_map.1 h with ⟨l, hl, rfl⟩
  have h2 := (List.mem_filter.1 hl).2
  simp only [decide_eq_true_eq] at h2
  have hlen : (String.mk l).length = l.length := rfl
  omega

theorem extractPriority_fst_mem (text : String) :
    (extractPriority text).1 = ("High") ∨ (extractPriority text).1 = ("Medium") ∨
      (extractPriority text).1 = ("Low") := by
  simp only [extractPriority]
  rcases hU : stripTier URGENT_KEYWORDS (lcL text.data) text.data with _ | c
  · rcases hH : stripTier HIGH_KEYWORDS (lcL text.data) text.data with _ | c
    · rcases hL : stripTier LOW_KEYWORDS (lcL text.data) text.data with _ | c
      · simp
      · simp
    · simp
  · simp

theorem psUrgency_mem (seg : String) :
    psUrgency seg = ("Low") ∨ psUrgency seg = ("Medium") ∨ psUrgency seg = ("High") := by
  unfold psUrgency
  rcases extractPriority_fst_mem seg with h | h | h <;> rw [h] <;> split_ifs <;> decide

theorem extractCategory_fst_mem (text : String) :
    (extractCategory text).1 = ("Work") ∨ (extractCategory text).1 = ("Home") := by
  unfold extractCategory
  dsimp only []
  split_ifs <;> simp

/-- C9: every TaskRecord returned by parseTasks, on any input and any
ambient values, has a non-empty description, a category in
{Work, Home}, an urgency in {Low, Medium, High}, a dueDate that is
either the sentinel "Not specified" or a `formatDate`-rendered calendar
date, and completed = false at creation. -/
theorem C9_invariants (input : String) (amb : Ambient) (r : Task)
    (hr : r ∈ parseTasks input amb) :
    r.description ≠ ("") ∧
    (r.category = ("Work") ∨ r.category = ("Home")) ∧
    (r.urgency = ("Low") ∨ r.urgency = ("Medium") ∨ r.urgency = ("High")) ∧
    (r.dueDate = ("Not specified") ∨ ∃ t : Instant, r.dueDate = formatDate t) ∧
    r.completed = false := by
  unfold parseTasks at hr
  obtain ⟨s, hs, i, rfl⟩ := mem_runSegments hr
  have hlen := mem_segment_len _ _ hs
  refine ⟨?_, ?_, ?_, ?_, processSegment_completed s amb.now i⟩
  · rw [processSegment_description]
    unfold psDescription
    split_ifs with hx
    · intro hc
      rw [hc] at hlen
      exact absurd hlen (by decide)
    · intro hc
      rw [hc] at hx
      exact hx (by decide)
  · rw [processSegment_category]
    exact extractCategory_fst_mem _
  · rw [processSegment_urgency]
    exact psUrgency_mem _
  · rw [processSegment_dueDate]
    unfold psDueDate
    rcases hcase : (extractDate (extractCategory (extractPriority s).2).2 amb.now).1
        with _ | dd
    · exact Or.inl rfl
    · exact Or.inr ⟨dd, rfl⟩

/-- C9 witness: the invariants evaluated on the record produced for
the utterance "call mother". -/
theorem C9_witness :
    ((⟨("Call mother"), ("Not specified"), ("Home"), ("Medium"), false, ("ID")⟩ : Task) ∈
      parseTasks ("call mother") { now := ⟨20096, 0⟩, idGen := fun _ => ("ID") }) ∧
    ((⟨("Call mother"), ("Not specified"), ("Home"), ("Medium"), false, ("ID")⟩ :
        Task).description ≠ ("") ∧
      ((⟨("Call mother"), ("Not specified"), ("Home"), ("Medium"), false, ("ID")⟩ :
          Task).category = ("Work") ∨
        (⟨("Call mother"), ("Not specified"), ("Home"), ("Medium"), false, ("ID")⟩ :
          Task).category = ("Home")) ∧
      ((⟨("Call mother"), ("Not specified"), ("Home"), ("Medium"), false, ("ID")⟩ :
          Task).urgency = ("Low") ∨
        (⟨("Call mother"), ("Not specified"), ("Home"), ("Medium"), false, ("ID")⟩ :
          Task).urgency = ("Medium") ∨
        (⟨("Call mother"), ("Not specified"), ("Home"), ("Medium"), false, ("ID")⟩ :
          Task).urgency = ("High")) ∧
      ((⟨("Call mother"), ("Not specified"), ("Home"), ("Medium"), false, ("ID")⟩ :
          Task).dueDate = ("Not specified") ∨
        ∃ t : Instant,
          (⟨("Call mother"), ("Not specified"), ("Home"), ("Medium"), false, ("ID")⟩ :
            Task).dueDate = formatDate t) ∧
      (⟨("Call mother"), ("Not specified"), ("Home"), ("Medium"), false, ("ID")⟩ :
        Task).completed = false) :=
  ⟨by decide, C9_invariants ("call mother") { now := ⟨20096, 0⟩, idGen := fun _ => ("ID") }
    ⟨("Call mother"), ("Not specified"), ("Home"), ("Medium"), false, ("ID")⟩ (by decide)⟩

/-! ## Claim C1 -/

/-- C1 (counterexample): at the Wednesday instant 2025-01-08 the input
"i need to call mom tonight, also email the client by friday" yields a
first record whose dueDate is the sentinel "Not specified", not that
Wednesday's date "08-Jan" — the claim as stated is false: the priority
extractor consumes "tonight" before the date resolver runs. -/
theorem C1_counterexample :
    getDay ⟨20096, 0⟩ = 3 ∧
    formatDate ⟨20096, 0⟩ = ("08-Jan") ∧
    (parseTasks ("i need to call mom tonight, also email the client by friday")
        { now := ⟨20096, 0⟩, idGen := fun _ => ("ID") }).map Task.dueDate =
      [("Not specified"), ("10-Jan")] ∧
    ("Not specified") ≠ ("08-Jan") := by
  decide

/-- C1 (amended): for every reference instant falling on a Wednesday
and any ambient id source, the input produces exactly two records in
clause order: first (description "Call mother", category Home, urgency
High, dueDate "Not specified" — "tonight" is consumed by the priority
extractor before date resolution), second (description "Also email
client", category Work, urgency Medium, dueDate = the coming Friday,
`now + 2` days, whose weekday is 5). -/
theorem C1_amended (now : Instant) (idGen : Nat → String) (h : getDay now = 3) :
    parseTasks ("i need to call mom tonight, also email the client by friday")
        { now := now, idGen := idGen } =
      [{ description := ("Call mother"), dueDate := ("Not specified"),
          category := ("Home"), urgency := ("High"), completed := false, id := idGen 0 },
        { description := ("Also email client"), dueDate := formatDate (addDays now 2),
          category := ("Work"), urgency := ("Medium"), completed := false,
          id := idGen 1 }] ∧
    getDay (addDays now 2) = 5 := by
  constructor
  · unfold parseTasks
    have hseg : segment (normalize
        ("i need to call mom tonight, also email the client by friday")) =
        [("call mother tonight"), ("also email the client by friday")] := by decide
    rw [hseg]
    simp only [runSegments]
    have hz1 : extractDate ("call mother") now = (none, ("call mother")) := rfl
    have hz2 : extractDate ("also email the client by friday") now =
        (some (jsSetDate now (getDate now +
          (if (5 : Int) - getDay now ≤ 0 then 5 - getDay now + 7 else 5 - getDay now))),
          ("also email the client")) := rfl
    have hz4 : (if (5 : Int) - getDay now ≤ 0 then 5 - getDay now + 7
        else 5 - getDay now) = 2 := by
      rw [h]
      norm_num
    rw [hz4, jsSetDate_getDate_add] at hz2
    have hx1 : (extractCategory (extractPriority ("call mother tonight")).2).2 =
        ("call mother") := by decide
    have hx2 : (extractCategory (extractPriority ("also email the client by friday")).2).2 =
        ("also email the client by friday") := by decide
    have hdesc1 : psDescription ("call mother tonight") now = ("Call mother") := by
      unfold psDescription afterDateText
      rw [hx1, hz1]
      decide
    have hdue1 : psDueDate ("call mother tonight") now = ("Not specified") := by
      unfold psDueDate
      rw [hx1, hz1]
    have hcat1 : (extractCategory (extractPriority ("call mother tonight")).2).1 =
        ("Home") := by decide
    have hurg1 : psUrgency ("call mother tonight") = ("High") := by decide
    have hdesc2 : psDescription ("also email the client by friday") now =
        ("Also email client") := by
      unfold psDescription afterDateText
      rw [hx2, hz2]
      dsimp only []
      decide
    have hdue2 : psDueDate ("also email the client by friday") now =
        formatDate (addDays now 2) := by
      unfold psDueDate
      rw [hx2, hz2]
    have hcat2 : (extractCategory (extractPriority
        ("also email the client by friday")).2).1 = ("Work") := by decide
    have hurg2 : psUrgency ("also email the client by friday") = ("Medium") := by decide
    simp only [processSegment, hdesc1, hdue1, hcat1, hurg1, hdesc2, hdue2, hcat2, hurg2]
  · unfold getDay at h
    unfold getDay addDays
    dsimp only []
    omega

/-- C1 witness: the amended statement instantiated at Wednesday
2025-01-08. -/
theorem C1_witness :
    getDay ⟨20096, 0⟩ = 3 ∧
    (parseTasks ("i need to call mom tonight, also email the client by friday")
        { now := ⟨20096, 0⟩, idGen := fun _ => ("ID") } =
      [{ description := ("Call mother"), dueDate := ("Not specified"),
          category := ("Home"), urgency := ("High"), completed := false, id := ("ID") },
        { description := ("Also email client"),
          dueDate := formatDate (addDays ⟨20096, 0⟩ 2),
          category := ("Work"), urgency := ("Medium"), completed := false,
          id := ("ID") }] ∧
    getDay (addDays ⟨20096, 0⟩ 2) = 5) :=
  ⟨by decide, C1_amended ⟨20096, 0⟩ (fun _ => ("ID")) (by decide)⟩


end TaskParser
